import Mathlib

/-!
Verification of the video-clipper pipeline (src/app.py) against its
natural-language specification.

The development shallowly embeds the program: pure helpers become Lean
functions over `String`/`ℚ`, the effectful `download_youtube_video` and
`trim_video` functions become functions of an explicit environment that
records what the outside world (network, filesystem, codec library) does,
and Python exceptions become explicit error values.
-/

/-- The characters the regex character class at src/app.py:28 matches:
`[<>:"/\\|?*]`. -/
def forbiddenChars : List Char := ['<', '>', ':', '\"', '/', '\\', '|', '?', '*']

/-- Embedding of `sanitize_filename` (src/app.py:26-28):
`re.sub` with an empty replacement deletes every occurrence of a character
of the class and keeps all other characters in order. -/
def sanitize_filename (s : String) : String :=
  ⟨s.data.filter (fun c => !forbiddenChars.contains c)⟩

/-- POSIX `os.path.join a b` for a relative second component, as used at
src/app.py:48, 82 and 95.  Every second argument the program builds is a
sanitized name (so it contains no slash) plus a literal suffix, hence the
plain `a ++ "/" ++ b` form is exact. -/
def pathJoin (a b : String) : String := a ++ "/" ++ b

/-- Embedding of the segment-count computation at src/app.py:77-79:
`int(total_duration // segment_duration) + (1 if total_duration % segment_duration > 0 else 0)`.
Python float `//` is `⌊d / s⌋` and float `%` is `d - s * ⌊d / s⌋`
(both follow the sign of the divisor), and `int` of the integral float
`d // s` is exact. -/
def numSegments (d s : ℚ) : ℤ :=
  ⌊d / s⌋ + (if d - s * ⌊d / s⌋ > 0 then 1 else 0)

/-- The `[start_time, end_time)` windows the loop at src/app.py:90-92
computes: `start_time = i * segment_duration`,
`end_time = min((i + 1) * segment_duration, total_duration)`. -/
def windows (d s : ℚ) : List (ℚ × ℚ) :=
  (List.range (numSegments d s).toNat).map
    (fun i : Nat => ((i : ℚ) * s, min (((i : ℚ) + 1) * s) d))

-- ## Planner arithmetic

theorem numSegments_eq_ceil (d s : ℚ) (hs : 0 < s) : numSegments d s = ⌈d / s⌉ := by
  unfold numSegments
  have hds : s * (d / s) = d := by field_simp
  have hrem : d - s * ⌊d / s⌋ = s * Int.fract (d / s) := by
    rw [Int.fract, mul_sub, hds]
  by_cases hfr : Int.fract (d / s) = 0
  · have hint : (⌊d / s⌋ : ℚ) = d / s := by
      have h := Int.fract_add_floor (d / s)
      rw [hfr] at h; simpa using h
    rw [hrem, hfr, mul_zero]
    simp only [gt_iff_lt, lt_self_iff_false, if_false, add_zero]
    rw [← hint, Int.ceil_intCast, Int.floor_intCast]
  · have hpos : 0 < Int.fract (d / s) := lt_of_le_of_ne (Int.fract_nonneg _) (Ne.symm hfr)
    have hcond : d - s * ⌊d / s⌋ > 0 := by rw [hrem]; positivity
    rw [if_pos hcond]
    symm
    rw [Int.ceil_eq_iff]
    constructor
    · push_cast
      have : (⌊d / s⌋ : ℚ) < d / s := by
        have := Int.fract_add_floor (d / s)
        nlinarith [hpos]
      linarith
    · push_cast
      have := Int.lt_floor_add_one (d / s)
      linarith

theorem numSegments_pos (d s : ℚ) (hd : 0 < d) (hs : 0 < s) : 0 < numSegments d s := by
  rw [numSegments_eq_ceil d s hs]
  exact Int.ceil_pos.mpr (div_pos hd hs)

theorem le_numSegments_mul (d s : ℚ) (hs : 0 < s) : d ≤ (numSegments d s : ℚ) * s := by
  rw [numSegments_eq_ceil d s hs]
  have := Int.le_ceil (d / s)
  calc d = d / s * s := by field_simp
    _ ≤ (⌈d / s⌉ : ℚ) * s := by
        exact mul_le_mul_of_nonneg_right this (le_of_lt hs)

theorem numSegments_sub_one_mul_lt (d s : ℚ) (hs : 0 < s) :
    ((numSegments d s : ℚ) - 1) * s < d := by
  rw [numSegments_eq_ceil d s hs]
  have h1 : (⌈d / s⌉ : ℚ) - 1 < d / s := by
    have := Int.ceil_lt_add_one (d / s)
    linarith
  calc ((⌈d / s⌉ : ℚ) - 1) * s < d / s * s := by
        exact mul_lt_mul_of_pos_right h1 hs
    _ = d := by field_simp

-- ## Stream selection and download (src/app.py:31-64)

/-- One fetchable encoding variant of the remote resource, with the
attributes the stream query at src/app.py:36 filters and ranks on. -/
structure StreamDescriptor where
  progressive : Bool
  fileExtension : String
  resolution : Nat
deriving DecidableEq, Repr

/-- The predicate of `yt.streams.filter(progressive=True, file_extension="mp4")`
(src/app.py:36). -/
def isCandidate (v : StreamDescriptor) : Bool :=
  v.progressive && (v.fileExtension == "mp4")

/-- Modelled from the spec: the ranking half of the pytubefix stream-query
chain `.order_by("resolution").desc().first()` (src/app.py:35-40) lives in
the external pytubefix library, not in this repository.  Per spec section 4.1
it returns the candidate with the highest resolution, ties broken by the
resolver-reported ordering with the first match winning: keep the current
element unless a strictly higher resolution appears later. -/
def argmaxFirst : List StreamDescriptor → Option StreamDescriptor
  | [] => none
  | x :: xs =>
    match argmaxFirst xs with
    | none => some x
    | some y => if y.resolution > x.resolution then some y else some x

/-- The whole selection expression at src/app.py:35-40. -/
def selectStream (streams : List StreamDescriptor) : Option StreamDescriptor :=
  argmaxFirst (streams.filter isCandidate)

/-- The distinct failure exits of `download_youtube_video`, in the order the
code can take them: the generic `except` at src/app.py:62-64 entered from
`YouTube(url)` or from `video.download`, the `if not video` check at
src/app.py:41-43 (message "No suitable video stream found"), and the
post-poll existence check at src/app.py:57-59 (message
"Download failed - file not created"). -/
inductive DownloadError where
  | resolveFailure
  | noSuitableStream
  | downloadFailure
  | fileNotCreated
deriving DecidableEq, Repr

/-- What the outside world does during one `download_youtube_video` call:
whether `YouTube(url)` raises, which streams the resolver reports, the
resource title, whether `video.download` raises, and whether the output
file exists after `t` one-second sleeps of the verification loop. -/
structure DownloadEnv where
  ytRaises : Bool
  streams : List StreamDescriptor
  title : String
  downloadRaises : Bool
  fileAppears : Nat → Bool

/-- The pair `download_youtube_video` returns, plus which error exit (if
any) was taken via `st.error`. -/
structure DownloadResult where
  path : Option String
  filename : Option String
  errKind : Option DownloadError
deriving DecidableEq, Repr

/-- The existence-verification loop at src/app.py:51-55:
`while not os.path.exists(output_path) and attempts < max_attempts:`
with `max_attempts = 10` and a `time.sleep(1)` per iteration.  `attempts`
counts the sleeps performed, so the existence oracle is sampled at the
current `attempts` value; the result is the final value of `attempts`.
Fuel bounds the recursion; `pollLoop ex 0 10` never exhausts it early
because the guard `attempts < 10` stops the loop at the same point. -/
def pollLoop (ex : Nat → Bool) : Nat → Nat → Nat
  | attempts, 0 => attempts
  | attempts, fuel + 1 =>
    if ex attempts then attempts
    else if attempts < 10 then pollLoop ex (attempts + 1) fuel
    else attempts

/-- Embedding of `download_youtube_video` (src/app.py:31-64). -/
def download_youtube_video (env : DownloadEnv) : DownloadResult :=
  if env.ytRaises then ⟨none, none, some .resolveFailure⟩
  else
    match selectStream env.streams with
    | none => ⟨none, none, some .noSuitableStream⟩
    | some _ =>
      let filename := sanitize_filename env.title
      if env.downloadRaises then ⟨none, none, some .downloadFailure⟩
      else
        let outputPath := pathJoin "youtube_videos" (filename ++ ".mp4")
        let attempts := pollLoop env.fileAppears 0 10
        if env.fileAppears attempts then ⟨some outputPath, some filename, none⟩
        else ⟨none, none, some .fileNotCreated⟩

-- ## Trimming (src/app.py:67-109)

/-- The failure exits of `trim_video`: the missing-file check at
src/app.py:69-71, and the generic `except` at src/app.py:104-106 entered
from `VideoFileClip`, from the `ZeroDivisionError` the float `//` raises at
src/app.py:77 when `segment_duration == 0`, or from a segment
subclip/write. -/
inductive TrimError where
  | fileNotFound
  | openFailure
  | zeroDivision
  | segmentError
deriving DecidableEq, Repr

/-- What the outside world does during one `trim_video` call: whether the
source path exists, whether `VideoFileClip` raises, the probed
`video.duration`, and whether the subclip/write of 0-based segment `i`
raises. -/
structure TrimEnv where
  fileExists : Bool
  openFails : Bool
  duration : ℚ
  segFails : Nat → Bool

/-- The list `trim_video` returns, the progress values emitted on the bar
(src/app.py:100-101), which error exit (if any) was taken, and whether the
`VideoFileClip` handle was opened and closed. -/
structure TrimResult where
  paths : List String
  progress : List ℚ
  errKind : Option TrimError
  opened : Bool
  closed : Bool
deriving DecidableEq, Repr

/-- The body of the `for i in range(num_segments)` loop at src/app.py:90-101,
started at index `i` with `r` iterations remaining.  Returns the
`trimmed_paths` accumulated up to the first failing segment (on disk they
exist; the `except` branch will discard the list), the progress values
emitted so far, and whether a segment raised. -/
def segLoop (fails : Nat → Bool) (outDir : String) (n : Nat) :
    Nat → Nat → List String × List ℚ × Bool
  | _, 0 => ([], [], false)
  | i, r + 1 =>
    if fails i then ([], [], true)
    else
      let path := pathJoin outDir ("part_" ++ toString (i + 1) ++ ".mp4")
      let prog := ((i : ℚ) + 1) / (n : ℚ)
      let rest := segLoop fails outDir n (i + 1) r
      (path :: rest.1, prog :: rest.2.1, rest.2.2)

/-- Embedding of `trim_video` (src/app.py:67-109).  The `finally` block at
src/app.py:107-109 closes the clip whenever `VideoFileClip` succeeded, on
both the normal and the exception exit. -/
def trim_video (env : TrimEnv) (videoPath filename : String) (s : ℚ) : TrimResult :=
  if !env.fileExists then ⟨[], [], some .fileNotFound, false, false⟩
  else if env.openFails then ⟨[], [], some .openFailure, false, false⟩
  else if s = 0 then ⟨[], [], some .zeroDivision, true, true⟩
  else
    let n := (numSegments env.duration s).toNat
    let outDir := pathJoin "trimmed_videos" (sanitize_filename filename)
    let res := segLoop env.segFails outDir n 0 n
    if res.2.2 then ⟨[], res.2.1, some .segmentError, true, true⟩
    else ⟨res.1, res.2.1, none, true, true⟩

/-- The caller-side flow at src/app.py:120-129: `trim_video` runs only when
both returned values are truthy (a `None` or the empty string is falsy in
Python), so a failed download yields zero segment artifacts. -/
def runPipeline (denv : DownloadEnv) (tenv : TrimEnv) (s : ℚ) : List String :=
  let r := download_youtube_video denv
  match r.path, r.filename with
  | some p, some f =>
    if p.length ≠ 0 ∧ f.length ≠ 0 then (trim_video tenv p f s).paths else []
  | _, _ => []

-- ## Helper lemmas

theorem windows_length (d s : ℚ) : (windows d s).length = (numSegments d s).toNat := by
  simp [windows]

theorem windows_getElem (d s : ℚ) (i : Nat) (h : i < (numSegments d s).toNat) :
    (windows d s)[i]? = some ((i : ℚ) * s, min (((i : ℚ) + 1) * s) d) := by
  unfold windows
  rw [List.getElem?_map, List.getElem?_range h]
  rfl

theorem numSegments_toNat_cast (d s : ℚ) (hd : 0 < d) (hs : 0 < s) :
    (((numSegments d s).toNat : ℤ) : ℚ) = ((numSegments d s : ℤ) : ℚ) := by
  rw [Int.toNat_of_nonneg (numSegments_pos d s hd hs).le]

theorem numSegments_150_60 : numSegments 150 60 = 3 := by
  norm_num [numSegments, Int.floor_eq_iff]

/-- The claim C2 scenario: `windows 150 60` enumerated. -/
theorem windows_150_60 : windows 150 60 = [(0, 60), (60, 120), (120, 150)] := by
  rw [windows, numSegments_150_60]
  show List.map _ (List.range 3) = _
  rw [show (3 : Nat) = 2 + 1 from rfl, List.range_succ, List.range_succ, List.range_succ,
    List.range_zero]
  norm_num

-- ## C2: planner windows

/-- C2: for every totalDuration d > 0 and segmentLength s > 0, the windows
computed by the loop at src/app.py:90-92 number `⌈d / s⌉`, are contiguous
and gapless, start at 0, end exactly at d (exact equality, hence within the
1e-6 tolerance), every non-last window has length exactly s, the last has
length in (0, s], and `windows 150 60 = [(0,60), (60,120), (120,150)]`. -/
theorem planner_windows_spec (d s : ℚ) (hd : 0 < d) (hs : 0 < s) :
    (windows d s).length = (⌈d / s⌉).toNat ∧
    0 < (windows d s).length ∧
    (∀ i : Nat, ∀ a b : ℚ × ℚ,
      (windows d s)[i]? = some a → (windows d s)[i + 1]? = some b → a.2 = b.1) ∧
    (∀ a : ℚ × ℚ, (windows d s).head? = some a → a.1 = 0) ∧
    (∀ a : ℚ × ℚ, (windows d s).getLast? = some a → a.2 = d) ∧
    (∀ i : Nat, ∀ a : ℚ × ℚ, i + 1 < (windows d s).length →
      (windows d s)[i]? = some a → a.2 - a.1 = s) ∧
    (∀ a : ℚ × ℚ, (windows d s).getLast? = some a → 0 < a.2 - a.1 ∧ a.2 - a.1 ≤ s) ∧
    windows 150 60 = [(0, 60), (60, 120), (120, 150)] := by
  have hpos := numSegments_pos d s hd hs
  have hcast : (((numSegments d s).toNat : ℚ)) = ((numSegments d s : ℤ) : ℚ) := by
    exact_mod_cast numSegments_toNat_cast d s hd hs
  have hlt : ∀ k : Nat, k + 1 < (numSegments d s).toNat → ((k : ℚ) + 1) * s < d := by
    intro k hk
    have h2 : ((k : ℚ) + 1) ≤ ((numSegments d s).toNat : ℚ) - 1 := by
      have h3 : (k + 2 : Nat) ≤ (numSegments d s).toNat := by omega
      have h4 : ((k + 2 : Nat) : ℚ) ≤ (((numSegments d s).toNat : Nat) : ℚ) := by
        exact_mod_cast h3
      push_cast at h4
      linarith
    calc ((k : ℚ) + 1) * s ≤ (((numSegments d s).toNat : ℚ) - 1) * s :=
          mul_le_mul_of_nonneg_right h2 hs.le
      _ < d := by rw [hcast]; exact numSegments_sub_one_mul_lt d s hs
  have hle : d ≤ ((numSegments d s).toNat : ℚ) * s := by
    rw [hcast]; exact le_numSegments_mul d s hs
  refine ⟨?_, ?_, ?_, ?_, ?_, ?_, ?_, windows_150_60⟩
  · rw [windows_length, numSegments_eq_ceil d s hs]
  · rw [windows_length]; omega
  · intro i a b ha hb
    have hib : i + 1 < (numSegments d s).toNat := by
      have := (List.getElem?_eq_some.mp hb).1
      rwa [windows_length] at this
    rw [windows_getElem d s i (by omega)] at ha
    rw [windows_getElem d s (i + 1) hib] at hb
    have ha2 : a = ((i : ℚ) * s, min (((i : ℚ) + 1) * s) d) := by
      exact (Option.some_injective _ ha).symm
    have hb2 : b = (((i + 1 : Nat) : ℚ) * s, min ((((i + 1 : Nat) : ℚ) + 1) * s) d) := by
      exact (Option.some_injective _ hb).symm
    rw [ha2, hb2]
    push_cast
    exact min_eq_left (hlt i hib).le
  · intro a ha
    rw [List.head?_eq_getElem?, windows_getElem d s 0 (by omega)] at ha
    have := (Option.some_injective _ ha).symm
    rw [this]
    norm_num
  · intro a ha
    obtain ⟨m, hm⟩ : ∃ m, (numSegments d s).toNat = m + 1 := ⟨(numSegments d s).toNat - 1, by omega⟩
    rw [List.getLast?_eq_getElem?, windows_length, hm] at ha
    simp only [Nat.add_sub_cancel] at ha
    rw [windows_getElem d s m (by omega)] at ha
    have h2 := (Option.some_injective _ ha).symm
    rw [h2]
    have : ((m : ℚ) + 1) = ((numSegments d s).toNat : ℚ) := by
      rw [hm]; push_cast; ring
    simp only
    rw [this]
    exact min_eq_right hle
  · intro i a hi ha
    rw [windows_length] at hi
    rw [windows_getElem d s i (by omega)] at ha
    have h2 := (Option.some_injective _ ha).symm
    rw [h2]
    simp only
    rw [min_eq_left (hlt i hi).le]
    ring
  · intro a ha
    obtain ⟨m, hm⟩ : ∃ m, (numSegments d s).toNat = m + 1 := ⟨(numSegments d s).toNat - 1, by omega⟩
    rw [List.getLast?_eq_getElem?, windows_length, hm] at ha
    simp only [Nat.add_sub_cancel] at ha
    rw [windows_getElem d s m (by omega)] at ha
    have h2 := (Option.some_injective _ ha).symm
    have hmcast : ((m : ℚ) + 1) = ((numSegments d s).toNat : ℚ) := by
      rw [hm]; push_cast; ring
    have hmlt : (m : ℚ) * s < d := by
      have h3 : (m : ℚ) ≤ ((numSegments d s).toNat : ℚ) - 1 := by rw [← hmcast]; linarith
      calc (m : ℚ) * s ≤ (((numSegments d s).toNat : ℚ) - 1) * s :=
            mul_le_mul_of_nonneg_right h3 hs.le
        _ < d := by rw [hcast]; exact numSegments_sub_one_mul_lt d s hs
    rw [h2]
    simp only
    rw [hmcast, min_eq_right hle]
    constructor
    · linarith
    · have : d ≤ ((m : ℚ) + 1) * s := by rw [hmcast]; exact hle
      nlinarith

/-- Witness for C2 at the concrete scenario input. -/
theorem planner_windows_spec_w :
    (windows 150 60).length = (⌈(150 : ℚ) / 60⌉).toNat :=
  (planner_windows_spec 150 60 (by norm_num) (by norm_num)).1

-- ## C3: filename sanitization

/-- C3: `sanitize_filename` is idempotent, removes exactly the characters
in the forbidden set of src/app.py:28 and no other character (occurrence
counts of all other characters are preserved), keeps the remaining
characters in order (sublist), and maps "My: Video?" to "My Video". -/
theorem sanitize_filename_spec (s : String) :
    sanitize_filename (sanitize_filename s) = sanitize_filename s ∧
    (sanitize_filename s).data.Sublist s.data ∧
    (∀ c : Char, c ∈ forbiddenChars → (sanitize_filename s).data.count c = 0) ∧
    (∀ c : Char, c ∉ forbiddenChars → (sanitize_filename s).data.count c = s.data.count c) ∧
    sanitize_filename "My: Video?" = "My Video" := by
  refine ⟨?_, ?_, ?_, ?_, rfl⟩
  · unfold sanitize_filename
    exact congrArg String.mk
      (List.filter_eq_self.mpr (fun a ha => (List.mem_filter.mp ha).2))
  · exact List.filter_sublist s.data
  · intro c hc
    refine List.count_eq_zero.mpr (fun hmem => ?_)
    have h2 := (List.mem_filter.mp hmem).2
    simp at h2
    exact h2 hc
  · intro c hc
    unfold sanitize_filename
    refine List.count_filter ?_
    simpa using hc

/-- Witness for C3 at the scenario input, with the forbidden character ':'. -/
theorem sanitize_filename_spec_w :
    (sanitize_filename "My: Video?").data.count ':' = 0 :=
  (sanitize_filename_spec "My: Video?").2.2.1 ':' (by decide)

-- ## Segment-loop lemmas

theorem segLoop_ok (fails : Nat → Bool) (outDir : String) (n : Nat) :
    ∀ r i : Nat, (∀ j : Nat, i ≤ j → j < i + r → fails j = false) →
      segLoop fails outDir n i r =
        ((List.range' i r).map
           (fun j : Nat => pathJoin outDir ("part_" ++ toString (j + 1) ++ ".mp4")),
         (List.range' i r).map (fun j : Nat => ((j : ℚ) + 1) / (n : ℚ)),
         false) := by
  intro r
  induction r with
  | zero => intro i _; simp [segLoop]
  | succ m ih =>
    intro i h
    have hfi : fails i = false := h i le_rfl (by omega)
    have hrest := ih (i + 1) (fun j hj1 hj2 => h j (by omega) (by omega))
    simp only [segLoop, hfi, Bool.false_eq_true, if_false, hrest, List.range'_succ,
      List.map_cons]

theorem segLoop_fail (fails : Nat → Bool) (outDir : String) (n : Nat) :
    ∀ r i : Nat, (∃ j : Nat, i ≤ j ∧ j < i + r ∧ fails j = true) →
      (segLoop fails outDir n i r).2.2 = true := by
  intro r
  induction r with
  | zero => rintro i ⟨j, hj1, hj2, _⟩; omega
  | succ m ih =>
    rintro i ⟨j, hj1, hj2, hj3⟩
    by_cases hfi : fails i = true
    · simp [segLoop, hfi]
    · have hne : i ≠ j := fun h => hfi (h ▸ hj3)
      simp only [segLoop, hfi, Bool.false_eq_true, if_false]
      exact ih (i + 1) ⟨j, by omega, by omega, hj3⟩

-- ## C4: progress reporting

/-- C4: on a successful run (source present, clip opens, no segment fails,
positive duration and segment length), the progress values emitted at
src/app.py:100-101 number exactly the segment count, each lies in [0, 1],
they are strictly increasing (hence strictly non-decreasing), and the last
one is exactly 1. -/
theorem progress_monotone_spec (env : TrimEnv) (p f : String) (s : ℚ)
    (hfe : env.fileExists = true) (hof : env.openFails = false)
    (hd : 0 < env.duration) (hs : 0 < s)
    (hok : ∀ j : Nat, env.segFails j = false) :
    (trim_video env p f s).errKind = none ∧
    (trim_video env p f s).progress.length = (numSegments env.duration s).toNat ∧
    (∀ x ∈ (trim_video env p f s).progress, 0 ≤ x ∧ x ≤ 1) ∧
    (trim_video env p f s).progress.Pairwise (· < ·) ∧
    (trim_video env p f s).progress.getLast? = some 1 := by
  have hN : 0 < (numSegments env.duration s).toNat := by
    have := numSegments_pos env.duration s hd hs; omega
  have hN0 : (0 : ℚ) < ((numSegments env.duration s).toNat : ℚ) := by exact_mod_cast hN
  have hseg := segLoop_ok env.segFails (pathJoin "trimmed_videos" (sanitize_filename f))
    (numSegments env.duration s).toNat (numSegments env.duration s).toNat 0
    (fun j _ _ => hok j)
  have htv : trim_video env p f s =
      ⟨(List.range' 0 (numSegments env.duration s).toNat).map
         (fun j : Nat => pathJoin (pathJoin "trimmed_videos" (sanitize_filename f))
           ("part_" ++ toString (j + 1) ++ ".mp4")),
       (List.range' 0 (numSegments env.duration s).toNat).map
         (fun j : Nat => ((j : ℚ) + 1) / (((numSegments env.duration s).toNat : Nat) : ℚ)),
       none, true, true⟩ := by
    simp only [trim_video, hfe, hof, Bool.not_true, Bool.false_eq_true, if_false,
      if_neg (ne_of_gt hs), hseg]
  rw [htv]
  simp only [← List.range_eq_range']
  refine ⟨by simp, by simp, ?_, ?_, ?_⟩
  · intro x hx
    simp only [List.mem_map, List.mem_range] at hx
    obtain ⟨j, hj, rfl⟩ := hx
    constructor
    · positivity
    · rw [div_le_one hN0]
      have : (j + 1 : Nat) ≤ (numSegments env.duration s).toNat := hj
      exact_mod_cast this
  · rw [List.pairwise_map]
    refine (List.pairwise_lt_range _).imp ?_
    intro a b hab
    have hc : (a : ℚ) + 1 < (b : ℚ) + 1 := by exact_mod_cast Nat.succ_lt_succ hab
    exact div_lt_div_of_pos_right hc hN0
  · obtain ⟨M, hM⟩ : ∃ M, (numSegments env.duration s).toNat = M + 1 :=
      ⟨(numSegments env.duration s).toNat - 1, by omega⟩
    rw [hM, List.range_succ, List.map_append]
    rw [List.map_cons, List.map_nil, List.getLast?_concat]
    congr 1
    rw [div_eq_one_iff_eq]
    · push_cast; ring
    · push_cast
      have : (0 : ℚ) ≤ (M : ℚ) := by positivity
      linarith

/-- Witness for C4 at a concrete successful run (duration 150, segment
length 60). -/
theorem progress_monotone_spec_w :
    (trim_video ⟨true, false, 150, fun _ => false⟩ "v.mp4" "v" 60).errKind = none :=
  (progress_monotone_spec ⟨true, false, 150, fun _ => false⟩ "v.mp4" "v" 60 rfl rfl
    (by norm_num) (by norm_num) (fun _ => rfl)).1

-- ## C1: behavior when a segment transcode fails

/-- C1 counterexample: with duration 150 and segment length 60 the plan has
N = 3 segments; the transcoder fails on segment k = 2 (0-based index 1)
after segment 1 succeeded, so the claim demands exactly k - 1 = 1 returned
artifact, but the `except` branch at src/app.py:104-106 returns the empty
list: 0 artifacts, not 1. -/
theorem trim_failure_cex :
    numSegments 150 60 = 3 ∧
    (trim_video ⟨true, false, 150, fun i => i == 1⟩ "v.mp4" "v" 60).errKind =
      some .segmentError ∧
    (trim_video ⟨true, false, 150, fun i => i == 1⟩ "v.mp4" "v" 60).paths = [] ∧
    (trim_video ⟨true, false, 150, fun i => i == 1⟩ "v.mp4" "v" 60).paths.length ≠ 1 := by
  refine ⟨numSegments_150_60, ?_, ?_, ?_⟩ <;>
    simp [trim_video, numSegments_150_60, segLoop]

/-- C1 amended: if the transcoder fails on some segment k of the planned N
(any 0-based k < N), `trim_video` reports a failure (`st.error` plus return
from the `except` branch) and returns the EMPTY list — zero artifacts, not
the k - 1 produced before the failure; in particular it never returns N
artifacts and never reports success. -/
theorem trim_failure_amended (env : TrimEnv) (p f : String) (s : ℚ)
    (hfe : env.fileExists = true) (hof : env.openFails = false) (hs : s ≠ 0)
    (k : Nat) (hk : k < (numSegments env.duration s).toNat)
    (hfail : env.segFails k = true) :
    (trim_video env p f s).errKind = some .segmentError ∧
    (trim_video env p f s).paths = [] ∧
    (trim_video env p f s).paths.length < (numSegments env.duration s).toNat := by
  have hflag := segLoop_fail env.segFails
    (pathJoin "trimmed_videos" (sanitize_filename f))
    (numSegments env.duration s).toNat (numSegments env.duration s).toNat 0
    ⟨k, by omega, by omega, hfail⟩
  have htv : trim_video env p f s =
      ⟨[], (segLoop env.segFails (pathJoin "trimmed_videos" (sanitize_filename f))
              (numSegments env.duration s).toNat 0 (numSegments env.duration s).toNat).2.1,
       some .segmentError, true, true⟩ := by
    simp only [trim_video, hfe, hof, Bool.not_true, Bool.false_eq_true, if_false,
      if_neg hs, hflag, if_true]
  rw [htv]
  exact ⟨rfl, rfl, by simpa using Nat.lt_of_le_of_lt (Nat.zero_le k) hk⟩

/-- Witness for C1's amended theorem at the counterexample input. -/
theorem trim_failure_amended_w :
    (trim_video ⟨true, false, 150, fun i => i == 1⟩ "x.mp4" "x" 60).paths = [] :=
  (trim_failure_amended ⟨true, false, 150, fun i => i == 1⟩ "x.mp4" "x" 60 rfl rfl
    (by norm_num) 1 (by rw [numSegments_150_60]; norm_num) rfl).2.1

-- ## C6: nonpositive segment length

theorem numSegments_nonpos (d s : ℚ) (hd : 0 ≤ d) (hs : s < 0) : numSegments d s ≤ 0 := by
  unfold numSegments
  rcases eq_or_lt_of_le hd with h0 | hpos
  · rw [← h0]
    norm_num
  · have hq : d / s < 0 := div_neg_of_pos_of_neg hpos hs
    have hf : ⌊d / s⌋ < 0 := by
      rw [Int.floor_lt]
      exact_mod_cast hq
    split <;> omega

theorem numSegments_150_neg60 : numSegments 150 (-60) = -3 := by
  have h : ⌊(150 : ℚ) / (-60)⌋ = -3 := by
    rw [Int.floor_eq_iff] <;> norm_num
  norm_num [numSegments, h]

/-- C6 counterexample: at segment length -60 (which is ≤ 0) with an
existing, openable source of duration 150, `trim_video` does not fail at
all, let alone with an InvalidSegmentLength error: the segment count
computes to -3, Python's `range` of a negative int is empty, and the
function returns normally with an empty list and no error (no
InvalidSegmentLength error exists anywhere in the code). -/
theorem segment_length_cex :
    numSegments 150 (-60) = -3 ∧
    trim_video ⟨true, false, 150, fun _ => false⟩ "v.mp4" "v" (-60) =
      ⟨[], [], none, true, true⟩ := by
  refine ⟨numSegments_150_neg60, ?_⟩
  simp [trim_video, numSegments_150_neg60, segLoop]

/-- C6 amended: `trim_video` performs no segment-length validation.  For
s < 0 (with a nonnegative probed duration) it computes a nonpositive
segment count, runs zero loop iterations, and returns an empty list with
NO error; for s = 0 the float floor division at src/app.py:77 raises
ZeroDivisionError, which the generic handler at src/app.py:104-106 turns
into an empty-list return with the generic trimming error — in neither
case an InvalidSegmentLength failure. -/
theorem segment_length_amended (env : TrimEnv) (p f : String) (s : ℚ)
    (hfe : env.fileExists = true) (hof : env.openFails = false)
    (hd : 0 ≤ env.duration) (hs : s ≤ 0) :
    (trim_video env p f s).paths = [] ∧
    (trim_video env p f s).errKind = if s = 0 then some .zeroDivision else none := by
  by_cases h0 : s = 0
  · subst h0
    simp [trim_video, hfe, hof]
  · have hneg : s < 0 := lt_of_le_of_ne hs h0
    have hn : (numSegments env.duration s).toNat = 0 := by
      have := numSegments_nonpos env.duration s hd hneg
      omega
    have htv : trim_video env p f s = ⟨[], [], none, true, true⟩ := by
      simp [trim_video, hfe, hof, h0, hn, segLoop]
    rw [htv]
    exact ⟨rfl, by simp [h0]⟩

/-- Witness for C6's amended theorem at segment length -60. -/
theorem segment_length_amended_w :
    (trim_video ⟨true, false, 150, fun _ => false⟩ "v.mp4" "v" (-60)).paths = [] :=
  (segment_length_amended ⟨true, false, 150, fun _ => false⟩ "v.mp4" "v" (-60) rfl rfl
    (by norm_num) (by norm_num)).1

-- ## C8: handle release

/-- C8: on every exit path of `trim_video` on which the source handle was
opened (the `VideoFileClip` call at src/app.py:75 succeeded) — normal
completion, exception during segmentation, zero/degenerate windows — the
`finally` block at src/app.py:107-109 closes it before the function
returns. -/
theorem video_handle_closed (env : TrimEnv) (p f : String) (s : ℚ)
    (h : (trim_video env p f s).opened = true) :
    (trim_video env p f s).closed = true := by
  rcases env with ⟨fe, of, dur, sf⟩
  cases fe <;> cases of <;> by_cases h3 : s = 0 <;>
    simp only [trim_video, h3, Bool.not_true, Bool.not_false, Bool.false_eq_true, if_false,
      if_true] at h ⊢ <;>
    first
      | rfl
      | (split <;> rfl)
      | (split at h <;> simp_all)

/-- Witness for C8 at a run that opens the handle and fails mid-loop. -/
theorem video_handle_closed_w :
    (trim_video ⟨true, false, 150, fun i => i == 1⟩ "v.mp4" "v" 60).closed = true :=
  video_handle_closed ⟨true, false, 150, fun i => i == 1⟩ "v.mp4" "v" 60
    (by simp [trim_video, numSegments_150_60, segLoop])

-- ## Poll-loop lemmas

theorem pollLoop_le (ex : Nat → Bool) : ∀ fuel a : Nat, pollLoop ex a fuel ≤ a + fuel := by
  intro fuel
  induction fuel with
  | zero => intro a; simp [pollLoop]
  | succ m ih =>
    intro a
    simp only [pollLoop]
    split
    · omega
    · split
      · have := ih (a + 1); omega
      · omega

theorem pollLoop_absent (ex : Nat → Bool) (h : ∀ t : Nat, t ≤ 10 → ex t = false) :
    ∀ fuel a : Nat, a + fuel ≤ 10 → pollLoop ex a fuel = a + fuel := by
  intro fuel
  induction fuel with
  | zero => intro a _; simp [pollLoop]
  | succ m ih =>
    intro a ha
    have hexa : ex a = false := h a (by omega)
    have hrec := ih (a + 1) (by omega)
    simp only [pollLoop, hexa, Bool.false_eq_true, if_false, if_pos (show a < 10 by omega), hrec]
    omega

-- ## C5: bounded existence poll

/-- C5: after the transfer call returns, `download_youtube_video` polls for
the output file at most 10 times (`max_attempts = 10` at src/app.py:51),
one fixed one-second sleep per attempt; when the file is absent at every
sampled instant up to the bound, the loop runs its full 10 attempts, the
function takes the "Download failed - file not created" exit (the spec's
IncompleteDownload) returning (None, None), and the caller-side flow of
src/app.py:120-129 therefore produces zero segment artifacts. -/
theorem download_poll_spec (env : DownloadEnv)
    (hyt : env.ytRaises = false) (hdl : env.downloadRaises = false)
    (hsel : (selectStream env.streams).isSome = true)
    (habs : ∀ t : Nat, t ≤ 10 → env.fileAppears t = false) :
    (∀ ex : Nat → Bool, pollLoop ex 0 10 ≤ 10) ∧
    pollLoop env.fileAppears 0 10 = 10 ∧
    (download_youtube_video env).errKind = some DownloadError.fileNotCreated ∧
    (download_youtube_video env).path = none ∧
    (download_youtube_video env).filename = none ∧
    (∀ tenv : TrimEnv, ∀ s : ℚ, runPipeline env tenv s = []) := by
  have hbound : ∀ ex : Nat → Bool, pollLoop ex 0 10 ≤ 10 := fun ex => pollLoop_le ex 10 0
  have hten : pollLoop env.fileAppears 0 10 = 10 := by
    simpa using pollLoop_absent env.fileAppears habs 10 0 (by omega)
  obtain ⟨v, hv⟩ := Option.isSome_iff_exists.mp hsel
  have hdr : download_youtube_video env = ⟨none, none, some .fileNotCreated⟩ := by
    simp [download_youtube_video, hyt, hv, hdl, hten, habs 10 le_rfl]
  refine ⟨hbound, hten, by rw [hdr], by rw [hdr], by rw [hdr], ?_⟩
  intro tenv s
  simp [runPipeline, hdr]

/-- Witness for C5 with a file that never appears. -/
theorem download_poll_spec_w :
    (download_youtube_video ⟨false, [⟨true, "mp4", 720⟩], "T", false, fun _ => false⟩).errKind =
      some DownloadError.fileNotCreated :=
  (download_poll_spec ⟨false, [⟨true, "mp4", 720⟩], "T", false, fun _ => false⟩ rfl rfl rfl
    (fun _ _ => rfl)).2.2.1

-- ## C7: stream selection

theorem argmaxFirst_cons_ne_none (x : StreamDescriptor) (xs : List StreamDescriptor) :
    argmaxFirst (x :: xs) ≠ none := by
  simp only [argmaxFirst]
  cases argmaxFirst xs with
  | none => simp
  | some y =>
    show (if y.resolution > x.resolution then some y else some x) ≠ none
    split <;> simp

theorem argmaxFirst_none_iff (l : List StreamDescriptor) : argmaxFirst l = none ↔ l = [] := by
  cases l with
  | nil => simp [argmaxFirst]
  | cons x xs =>
    constructor
    · intro h; exact absurd h (argmaxFirst_cons_ne_none x xs)
    · intro h; exact absurd h (List.cons_ne_nil x xs)

theorem argmaxFirst_spec (l : List StreamDescriptor) (v : StreamDescriptor)
    (h : argmaxFirst l = some v) :
    (∀ w ∈ l, w.resolution ≤ v.resolution) ∧
    ∃ l₁ l₂, l = l₁ ++ v :: l₂ ∧ ∀ w ∈ l₁, w.resolution < v.resolution := by
  induction l generalizing v with
  | nil => simp [argmaxFirst] at h
  | cons x xs ih =>
    simp only [argmaxFirst] at h
    cases hx : argmaxFirst xs with
    | none =>
      rw [hx] at h
      have h2 : some x = some v := h
      have hxv : x = v := by simpa using h2
      have hnil : xs = [] := (argmaxFirst_none_iff xs).mp hx
      subst hxv; subst hnil
      exact ⟨by simp, [], [], rfl, by simp⟩
    | some y =>
      rw [hx] at h
      have h2 : (if y.resolution > x.resolution then some y else some x) = some v := h
      by_cases hyx : y.resolution > x.resolution
      · rw [if_pos hyx] at h2
        have hyv : y = v := by simpa using h2
        subst hyv
        obtain ⟨hbound, l₁, l₂, heq, hstrict⟩ := ih y hx
        refine ⟨?_, x :: l₁, l₂, by rw [heq, List.cons_append], ?_⟩
        · intro w hw
          rcases List.mem_cons.mp hw with hwx | hwxs
          · rw [hwx]; exact le_of_lt hyx
          · exact hbound w hwxs
        · intro w hw
          rcases List.mem_cons.mp hw with hwx | hwl
          · rw [hwx]; exact hyx
          · exact hstrict w hwl
      · rw [if_neg hyx] at h2
        have hxv : x = v := by simpa using h2
        subst hxv
        obtain ⟨hbound, _, _, _, _⟩ := ih y hx
        refine ⟨?_, [], xs, rfl, by simp⟩
        intro w hw
        rcases List.mem_cons.mp hw with hwx | hwxs
        · rw [hwx]
        · exact le_trans (hbound w hwxs) (Nat.not_lt.mp hyx)

/-- C7 (selection chain spec-modelled from §4.1, see `argmaxFirst`): the
selection at src/app.py:35-40 returns no stream exactly when no candidate
is both progressive and mp4 — in which case `download_youtube_video` takes
the "No suitable video stream found" exit (the spec's NoSuitableStream)
with a (None, None) result — and otherwise returns a progressive mp4
candidate of maximal resolution that occurs in the candidate list before
every strictly-better-resolution... none exists; every candidate preceding
it has strictly lower resolution (first match wins on ties). -/
theorem stream_selection_spec (streams : List StreamDescriptor) :
    (selectStream streams = none ↔ ∀ w ∈ streams, isCandidate w = false) ∧
    (∀ v, selectStream streams = some v →
      isCandidate v = true ∧
      (∀ w ∈ streams, isCandidate w = true → w.resolution ≤ v.resolution) ∧
      ∃ l₁ l₂, streams.filter isCandidate = l₁ ++ v :: l₂ ∧
        ∀ w ∈ l₁, w.resolution < v.resolution) ∧
    (∀ env : DownloadEnv, env.ytRaises = false → env.streams = streams →
      selectStream streams = none →
      (download_youtube_video env).errKind = some DownloadError.noSuitableStream ∧
      (download_youtube_video env).path = none ∧
      (download_youtube_video env).filename = none) := by
  refine ⟨?_, ?_, ?_⟩
  · rw [selectStream, argmaxFirst_none_iff, List.filter_eq_nil_iff]
    constructor
    · intro h w hw
      exact Bool.not_eq_true _ |>.mp (h w hw)
    · intro h w hw
      simp [h w hw]
  · intro v hv
    rw [selectStream] at hv
    obtain ⟨hbound, l₁, l₂, heq, hstrict⟩ := argmaxFirst_spec _ _ hv
    have hvmem : v ∈ streams.filter isCandidate := by
      rw [heq]
      exact List.mem_append_right _ (List.mem_cons_self _ _)
    refine ⟨(List.mem_filter.mp hvmem).2, ?_, l₁, l₂, heq, hstrict⟩
    intro w hw hc
    exact hbound w (List.mem_filter.mpr ⟨hw, hc⟩)
  · intro env hyt hst hnone
    have h2 : selectStream env.streams = none := by rw [hst]; exact hnone
    refine ⟨?_, ?_, ?_⟩ <;> simp [download_youtube_video, hyt, h2]

/-- Witness for C7: a single non-progressive stream yields the
NoSuitableStream exit. -/
theorem stream_selection_spec_w :
    (download_youtube_video ⟨false, [⟨false, "mp4", 1080⟩], "T", false, fun _ => true⟩).errKind =
      some DownloadError.noSuitableStream :=
  ((stream_selection_spec [⟨false, "mp4", 1080⟩]).2.2
    ⟨false, [⟨false, "mp4", 1080⟩], "T", false, fun _ => true⟩ rfl rfl rfl).1

-- ## C9: the return-pair invariant

/-- C9: every return of `download_youtube_video` is either (None, None)
(resolver exception, no suitable stream, download exception, or file
absent after the poll bound) or a pair of two non-None values whose path
is `os.path.join("youtube_videos", sanitized title + ".mp4")`
(src/app.py:45-48, 61); a pair with exactly one None component is
impossible. -/
theorem download_pair_invariant (env : DownloadEnv) :
    ((download_youtube_video env).path = none ∧
     (download_youtube_video env).filename = none) ∨
    ((download_youtube_video env).path =
       some (pathJoin "youtube_videos" (sanitize_filename env.title ++ ".mp4")) ∧
     (download_youtube_video env).filename = some (sanitize_filename env.title)) := by
  by_cases hyt : env.ytRaises = true
  · left; simp [download_youtube_video, hyt]
  · rcases hsel : selectStream env.streams with _ | v
    · left; simp [download_youtube_video, hyt, hsel]
    · by_cases hdl : env.downloadRaises = true
      · left; simp [download_youtube_video, hyt, hsel, hdl]
      · by_cases happ : env.fileAppears (pollLoop env.fileAppears 0 10) = true
        · right; simp [download_youtube_video, hyt, hsel, hdl, happ]
        · left; simp [download_youtube_video, hyt, hsel, hdl, happ]

-- ## C10: all-forbidden titles

/-- C10: any non-empty title made solely of forbidden characters
sanitizes to the empty string, so on a successful download the derived
output filename is just ".mp4" (empty base name) at path
"youtube_videos/.mp4" — the title is not rejected. -/
theorem forbidden_title_spec (title : String) (hne : title ≠ "")
    (hall : ∀ c ∈ title.data, c ∈ forbiddenChars) :
    sanitize_filename title = "" ∧
    (download_youtube_video ⟨false, [⟨true, "mp4", 720⟩], title, false, fun _ => true⟩).path =
      some "youtube_videos/.mp4" ∧
    (download_youtube_video ⟨false, [⟨true, "mp4", 720⟩], title, false, fun _ => true⟩).filename =
      some "" := by
  have hsan : sanitize_filename title = "" := by
    unfold sanitize_filename
    have hfil : title.data.filter (fun c => !forbiddenChars.contains c) = [] := by
      rw [List.filter_eq_nil_iff]
      intro a ha
      simp [hall a ha]
    rw [hfil]
  refine ⟨hsan, ?_, ?_⟩ <;>
    simp [download_youtube_video, selectStream, isCandidate, argmaxFirst, pollLoop, hsan,
      pathJoin]

/-- Witness for C10 at the title "???". -/
theorem forbidden_title_spec_w : sanitize_filename "???" = "" :=
  (forbidden_title_spec "???" (by decide) (by decide)).1
